/-
Verification of the mainu-web menu backend against its specification.

Shallow embedding of the core Python modules:
  * `app/schemas.py`        — MenuDish / MenuSection / MenuTemplate data model
  * `app/services/llm.py`   — response assembly (`_build_menu_template`,
                              `_format_price`) and the quick-suggestion join
  * `app/services/upload_session.py` — in-memory upload-session repository
  * `app/services/share.py` — in-memory share repository
  * `app/routes/menu.py`    — `delete_upload_session`, `retry_menu`,
                              `_purge_expired_sessions`, `_await_suggestion_task`

Instants in time are modelled as natural numbers (UTC timestamps); Python
dicts are modelled as association lists whose keys are unique (the `Nodup`
hypotheses below).  Python `float` values are modelled as rationals: the
claims under study only exercise decimally-representable prices, where the
rational model agrees with IEEE-754 rendering.
-/

import Mathlib

namespace Mainu

/-! ## Data model (`app/schemas.py`) -/

/-- `MenuDish` from `app/schemas.py`: dish-level metadata returned by the LLM. -/
structure MenuDish where
  original_name : String
  translated_name : String
  description : String
  price : Option String := none
  deriving DecidableEq, Repr

/-- `MenuSection` from `app/schemas.py`: top-level grouping of dishes. -/
structure MenuSection where
  title : String
  dishes : List MenuDish
  deriving DecidableEq, Repr

/-- `MenuTemplate` from `app/schemas.py`: structured response contract.
Pydantic defaults: `status="completed"`, `original_language=None`,
`sections=[]`. -/
structure MenuTemplate where
  status : String := "completed"
  original_language : Option String := none
  sections : List MenuSection := []
  deriving DecidableEq, Repr

/-! ## Python value model

The raw payload handed to `_build_menu_template` is the result of
`json.loads`, i.e. a tree of `None`/`str`/`int`/`float`/`list`/`dict`
values.  `PyVal` embeds that universe.  (Python `bool` is omitted: no
claim involves boolean payload fields.) -/

/-- A Python/JSON value as produced by `json.loads`. -/
inductive PyVal where
  | vnone
  | vstr (s : String)
  | vint (n : Int)
  | vfloat (q : Rat)
  | vlist (xs : List PyVal)
  | vdict (kvs : List (String × PyVal))

/-- Python truthiness (`bool(v)`): `None`, `""`, `0`, `0.0`, `[]`, `\x7b\x7d`
are falsy, everything else is truthy. -/
def pyTruthy : PyVal → Bool
  | .vnone => false
  | .vstr s => decide (s ≠ "")
  | .vint n => decide (n ≠ 0)
  | .vfloat q => decide (q ≠ 0)
  | .vlist xs => !xs.isEmpty
  | .vdict kvs => !kvs.isEmpty

/-- Python `str(v)` for payload scalars.  The float and container branches
are deterministic approximations of CPython's rendering (no claim under
study depends on stringifying a float, list or dict: they only feed the
section/name fields as opaque strings). -/
def pyStr : PyVal → String
  | .vnone => "None"
  | .vstr s => s
  | .vint n => toString n
  | .vfloat q => toString q
  | .vlist _ => "<list>"
  | .vdict _ => "<dict>"

/-- `d.get(k)` on a Python dict (returns `None`, i.e. `Option.none`, when
the key is missing).  Dicts have unique keys, so first-match lookup is
exact. -/
def pyGet (kvs : List (String × PyVal)) (k : String) : Option PyVal :=
  (kvs.find? (fun e => e.1 = k)).map (fun e => e.2)

/-- `d.get(k) or dflt`: Python's `or` falls through to the default when the
looked-up value is missing (`None`) or falsy. -/
def getOrDefault (kvs : List (String × PyVal)) (k : String) (dflt : PyVal) : PyVal :=
  match pyGet kvs k with
  | none => dflt
  | some v => if pyTruthy v then v else dflt

/-! ## Price formatting (`_format_price` in `app/services/llm.py`) -/

/-- Render a natural number below 100 as exactly two digits. -/
def pad2 (n : Nat) : String :=
  if n < 10 then "0" ++ toString n else toString n

/-- Round-half-even to the nearest integer, the rounding CPython's fixed
precision float formatting performs. -/
def roundHalfEven (x : Rat) : Int :=
  let f : Int := x.floor
  let r : Rat := x - (f : Rat)
  if r < 1 / 2 then f
  else if 1 / 2 < r then f + 1
  else if f % 2 = 0 then f else f + 1

/-- Embedding of the Python f-string `f"{value:.2f}"` on the rational model
of floats: round to cents (half-even) and print with exactly two digits
after the decimal point. -/
def pyFormat2f (q : Rat) : String :=
  let cents : Int := roundHalfEven (q * 100)
  let mag : Nat := cents.natAbs
  let body : String := toString (mag / 100) ++ "." ++ pad2 (mag % 100)
  if cents < 0 then "-" ++ body else body

/-- `_format_price` from `app/services/llm.py`:

```python
if value in (None, ""):
    return None
if isinstance(value, (int, float)):
    if isinstance(value, int) or (hasattr(value, "is_integer") and value.is_integer()):
        return f"\x7bint(value)\x7d"
    return f"\x7bvalue:.2f\x7d"
return str(value)
```

A rational with denominator 1 models an integer-valued float
(`value.is_integer()`); `int(value)` is then its numerator. -/
def format_price : PyVal → Option String
  | .vnone => none
  | .vstr "" => none
  | .vint n => some (toString n)
  | .vfloat q => if q.den = 1 then some (toString q.num) else some (pyFormat2f q)
  | .vstr s => some s
  | v => some (pyStr v)

/-! ## Response assembly (`_build_menu_template` in `app/services/llm.py`) -/

/-- `str(item.get("section") or "Menu")`: the section label, defaulting to
`"Menu"` when the field is absent or falsy (e.g. the empty string). -/
def sectionKey (kvs : List (String × PyVal)) : String :=
  pyStr (getOrDefault kvs "section" (.vstr "Menu"))

/-- Python's `str.strip()` with no argument: remove leading and trailing
whitespace.  (Python also strips a few exotic unicode spaces that
`Char.isWhitespace` does not know; no claim exercises those.) -/
def pyStrip (s : String) : String :=
  ⟨((s.data.dropWhile Char.isWhitespace).reverse.dropWhile Char.isWhitespace).reverse⟩

/-- `str(item.get(key) or "").strip()`: a required text field, trimmed. -/
def fieldTrim (kvs : List (String × PyVal)) (key : String) : String :=
  pyStrip (pyStr (getOrDefault kvs key (.vstr "")))

/-- The per-item body of the loop in `_build_menu_template`: the section
key together with the constructed `MenuDish` when the item is kept, `none`
when the item is silently dropped because `original_name`,
`translated_name` or `description` is missing or blank after trimming. -/
def buildDish (kvs : List (String × PyVal)) : Option (String × MenuDish) :=
  let secKey := sectionKey kvs
  let originalName := fieldTrim kvs "original_name"
  let translatedName := fieldTrim kvs "translated_name"
  let descriptionText := fieldTrim kvs "description"
  let priceText := format_price ((pyGet kvs "price").getD .vnone)
  if originalName = "" ∨ translatedName = "" ∨ descriptionText = "" then none
  else some (secKey,
    { original_name := originalName
      translated_name := translatedName
      description := descriptionText
      price := priceText })

/-- `for item in payload["items"]`: elements failing the
`isinstance(item, dict)` guard contribute nothing. -/
def itemEntry : PyVal → Option (String × MenuDish)
  | .vdict kvs => buildDish kvs
  | _ => none

/-- `sections[section].append(dish)` on the insertion-ordered
`defaultdict(list)`: append to the existing group, or open a new group at
the end. -/
def groupInsert (acc : List (String × List MenuDish)) (k : String) (d : MenuDish) :
    List (String × List MenuDish) :=
  if acc.any (fun e => e.1 = k) then
    acc.map (fun e => if e.1 = k then (e.1, e.2 ++ [d]) else e)
  else acc ++ [(k, [d])]

/-- The item loop of `_build_menu_template`. -/
def groupItems (items : List PyVal) (acc : List (String × List MenuDish)) :
    List (String × List MenuDish) :=
  match items with
  | [] => acc
  | it :: rest =>
    match itemEntry it with
    | none => groupItems rest acc
    | some (k, d) => groupItems rest (groupInsert acc k d)

/-- `_build_menu_template` from `app/services/llm.py`; `Except.error`
models a raised exception.  A payload that is not a dict, or a dict
without the key `"items"`, raises `RuntimeError`.  A `str` or `dict`
value under `"items"` is iterable in Python but yields only strings, so
every element is skipped by the `isinstance(item, dict)` guard; `None` or
a number under `"items"` raises `TypeError` in the `for` loop. -/
def build_menu_template (payload : PyVal) : Except String MenuTemplate :=
  match payload with
  | .vdict kvs =>
    match pyGet kvs "items" with
    | none => .error "OpenAI response missing items payload"
    | some (.vlist items) =>
      .ok { sections :=
              (groupItems items []).map (fun e => { title := e.1, dishes := e.2 }) }
    | some (.vstr _) => .ok { sections := [] }
    | some (.vdict _) => .ok { sections := [] }
    | some _ => .error "TypeError: object is not iterable"
  | _ => .error "OpenAI response missing items payload"

/-! ## Upload-session store (`app/services/upload_session.py`) -/

/-- `UploadSessionRecord` from `app/services/upload_session.py`. -/
structure UploadSessionRecord where
  token : String
  file_ids : List String
  filenames : List String
  content_types : List String
  created_at : Nat
  expires_at : Nat
  retry_count : Nat := 0
  deriving DecidableEq, Repr

/-- `InMemoryUploadRepository._store`: a dict from token to the pair
`(record, expires_at)`, modelled as an insertion-ordered association list
with unique keys. -/
abbrev UploadStore := List (String × UploadSessionRecord × Nat)

/-- `InMemoryUploadRepository.fetch`: lazy expiry — an entry whose
`expires_at` is at or before `now` is popped and reported missing.
Returns the fetched record (if any) with the updated store. -/
def uploadFetch (store : UploadStore) (token : String) (now : Nat) :
    Option UploadSessionRecord × UploadStore :=
  match store.find? (fun e => e.1 = token) with
  | none => (none, store)
  | some (_, rec, expiresAt) =>
    if expiresAt ≤ now then (none, store.filter (fun e => e.1 ≠ token))
    else (some rec, store)

/-- `InMemoryUploadRepository.delete`: `self._store.pop(token, None)`. -/
def uploadDelete (store : UploadStore) (token : String) : UploadStore :=
  store.filter (fun e => e.1 ≠ token)

/-- `InMemoryUploadRepository.purge`: pop every entry whose `expires_at`
is at or before `now`; return the popped records in insertion order. -/
def uploadPurge (store : UploadStore) (now : Nat) :
    List UploadSessionRecord × UploadStore :=
  ((store.filter (fun e => e.2.2 ≤ now)).map (fun e => e.2.1),
   store.filter (fun e => ¬ e.2.2 ≤ now))

/-- `InMemoryUploadRepository.increment_retry`; `none` models the raised
`KeyError` for an absent token.  The source checks only membership in the
dict — it does not consult `expires_at`.  `UploadSessionService.
increment_retry` delegates to this directly. -/
def uploadIncrementRetry (store : UploadStore) (token : String) :
    Option (Nat × UploadStore) :=
  match store.find? (fun e => e.1 = token) with
  | none => none
  | some (_, rec, expiresAt) =>
    let updated : UploadSessionRecord := { rec with retry_count := rec.retry_count + 1 }
    some (updated.retry_count,
      store.map (fun e => if e.1 = token then (token, updated, expiresAt) else e))

/-! ## Share store (`app/services/share.py`) -/

/-- `ShareRecord` from `app/services/share.py`. -/
structure ShareRecord where
  token : String
  template : MenuTemplate
  created_at : Nat
  expires_at : Nat
  deriving DecidableEq, Repr

/-- `InMemoryShareRepository._store`: token → (template, created_at,
expires_at). -/
abbrev ShareStore := List (String × MenuTemplate × Nat × Nat)

/-- `InMemoryShareRepository.fetch`.  Note the expiry comparison is
`datetime.now() > expires_at` — strict, unlike the upload store's
`expires_at <= now`. -/
def shareFetch (store : ShareStore) (token : String) (now : Nat) :
    Option ShareRecord × ShareStore :=
  match store.find? (fun e => e.1 = token) with
  | none => (none, store)
  | some (_, template, createdAt, expiresAt) =>
    if now > expiresAt then (none, store.filter (fun e => e.1 ≠ token))
    else (some ⟨token, template, createdAt, expiresAt⟩, store)

/-! ## Routes (`app/routes/menu.py`) -/

/-- `_MAX_SESSION_RETRIES` from `app/routes/menu.py`. -/
def MAX_SESSION_RETRIES : Nat := 5

/-- Observable effects of the session routes: a call to the remote
file-deletion capability (`menu_service.delete_files`) with a batch of
file ids, or removal of a session record from the store. -/
inductive SessionEvent where
  | deleteFiles (file_ids : List String)
  | removeRecord (token : String)
  deriving DecidableEq, Repr

/-- `_purge_expired_sessions`: purge the store and invoke
`menu_service.delete_files` on each purged record's `file_ids`. -/
def purge_expired_sessions (store : UploadStore) (now : Nat) :
    List SessionEvent × UploadStore :=
  let purged := uploadPurge store now
  (purged.1.map (fun r => .deleteFiles r.file_ids), purged.2)

/-- The `delete_upload_session` route: purge, `describe`, invoke
`delete_files` on the described record's `file_ids` (when present), then
remove the record.  The event list records the remote deletions and the
store removal in program order. -/
def delete_upload_session (store : UploadStore) (sessionId : String) (now : Nat) :
    List SessionEvent × UploadStore :=
  let purged := purge_expired_sessions store now
  let fetched := uploadFetch purged.2 sessionId now
  let fileEvents : List SessionEvent :=
    match fetched.1 with
    | some rec => [.deleteFiles rec.file_ids]
    | none => []
  (purged.1 ++ fileEvents ++ [.removeRecord sessionId], uploadDelete fetched.2 sessionId)

/-- Outcome of the `retry_menu` route, abstracting the downstream LLM
call: `generated fids` means the route proceeded to generation using the
recorded file ids `fids`; `notFound` is the 404, `retryLimit` the 429. -/
inductive RetryOutcome where
  | notFound
  | retryLimit
  | generated (file_ids : List String)
  deriving DecidableEq, Repr

/-- The `retry_menu` route: purge, `describe` (404 when absent/expired),
`increment_retry` (404 on `KeyError`), reject with 429 when the new count
exceeds `_MAX_SESSION_RETRIES`, otherwise generate from the recorded file
ids. -/
def retry_menu (store : UploadStore) (token : String) (now : Nat) :
    RetryOutcome × UploadStore :=
  let purged := purge_expired_sessions store now
  match uploadFetch purged.2 token now with
  | (none, s2) => (.notFound, s2)
  | (some rec, s2) =>
    match uploadIncrementRetry s2 rec.token with
    | none => (.notFound, s2)
    | some (count, s3) =>
      if count > MAX_SESSION_RETRIES then (.retryLimit, s3)
      else (.generated rec.file_ids, s3)

/-- The store after `n` successive `retry_menu` calls for `token`. -/
def retryStores (store : UploadStore) (token : String) (now : Nat) : Nat → UploadStore
  | 0 => store
  | n + 1 => (retry_menu (retryStores store token now n) token now).2

/-! ## Quick-suggestion join -/

/-- What awaiting the quick-suggestion task can observe: a computed value,
a timeout of `asyncio.wait_for`, or any raised exception. -/
inductive AwaitOutcome where
  | value (s : String)
  | timedOut
  | raised (msg : String)
  deriving DecidableEq, Repr

/-- `_await_suggestion_task` from `app/routes/menu.py`: on
`asyncio.TimeoutError` the task is cancelled-and-drained and `""` is
returned; any other exception also yields `""`. -/
def await_suggestion_task : AwaitOutcome → String
  | .value s => s
  | .timedOut => ""
  | .raised _ => ""

/-- `LLMMenuService._consume_suggestion_task` from `app/services/llm.py`
(same defensive structure as `_await_suggestion_task`). -/
def consume_suggestion_task : AwaitOutcome → String
  | .value s => s
  | .timedOut => ""
  | .raised _ => ""

/-- The joining tail of `_generate_menu_from_file_ids` in
`app/routes/menu.py`: once the primary extraction produced a template,
the suggestion task (when one was started) is resolved through
`_await_suggestion_task` and the combined result always succeeds. -/
def generate_menu_join (templateResult : Except String MenuTemplate)
    (hasSuggestionTask : Bool) (suggestion : AwaitOutcome) :
    Except String (MenuTemplate × String) :=
  match templateResult with
  | .error e => .error e
  | .ok t => .ok (t, if hasSuggestionTask then await_suggestion_task suggestion else "")

/-! ## Grouping infrastructure used to state the assembly properties -/

/-- Entry-level version of the item loop: the loop body of
`_build_menu_template` once `itemEntry` has produced a (section, dish)
pair.  `groupItems items acc = groupEntries (items.filterMap itemEntry) acc`. -/
def groupEntries (entries : List (String × MenuDish)) (acc : List (String × List MenuDish)) :
    List (String × List MenuDish) :=
  match entries with
  | [] => acc
  | (k, d) :: rest => groupEntries rest (groupInsert acc k d)

/-- The labels of `l` that are not in `seen`, each kept at its first
occurrence, in encounter order. -/
def firstSeenFrom : List String → List String → List String
  | [], _ => []
  | a :: l, seen =>
    if a ∈ seen then firstSeenFrom l seen else a :: firstSeenFrom l (seen ++ [a])

/-- The labels of `l` deduplicated, keeping first occurrences in encounter
order: the spec's "sections in the order their first dish was
encountered". -/
def firstSeen (l : List String) : List String :=
  firstSeenFrom l []

/-! ## Helper lemmas -/

theorem find?_eq_of_keys_nodup {α : Type} :
    ∀ {l : List (String × α)} {k : String} {v : α},
      (l.map Prod.fst).Nodup → (k, v) ∈ l →
      l.find? (fun e => e.1 = k) = some (k, v) := by
  intro l
  induction l with
  | nil => intro k v _ hmem; cases hmem
  | cons a t ih =>
    intro k v hnd hmem
    simp only [List.map_cons, List.nodup_cons] at hnd
    rcases List.mem_cons.mp hmem with h | h
    · subst h
      rw [List.find?_cons_of_pos]
      simp
    · have hka : ¬ a.1 = k := by
        intro he
        exact hnd.1 (he ▸ List.mem_map.mpr ⟨(k, v), h, rfl⟩)
      rw [List.find?_cons_of_neg]
      · exact ih hnd.2 h
      · simp [hka]

theorem mem_firstSeenFrom {x : String} :
    ∀ {l seen : List String}, x ∈ firstSeenFrom l seen → x ∈ l ∧ x ∉ seen := by
  intro l
  induction l with
  | nil => intro seen h; simp [firstSeenFrom] at h
  | cons a t ih =>
    intro seen h
    simp only [firstSeenFrom] at h
    by_cases ha : a ∈ seen
    · rw [if_pos ha] at h
      obtain ⟨h1, h2⟩ := ih h
      exact ⟨List.mem_cons_of_mem _ h1, h2⟩
    · rw [if_neg ha] at h
      rcases List.mem_cons.mp h with rfl | h
      · exact ⟨List.mem_cons_self _ _, ha⟩
      · obtain ⟨h1, h2⟩ := ih h
        refine ⟨List.mem_cons_of_mem _ h1, fun hx => h2 ?_⟩
        exact List.mem_append_left _ hx

theorem firstSeenFrom_mem {x : String} :
    ∀ {l seen : List String}, x ∈ l → x ∉ seen → x ∈ firstSeenFrom l seen := by
  intro l
  induction l with
  | nil => intro seen h _; cases h
  | cons a t ih =>
    intro seen hx hns
    simp only [firstSeenFrom]
    by_cases ha : a ∈ seen
    · rw [if_pos ha]
      rcases List.mem_cons.mp hx with rfl | hx
      · exact absurd ha hns
      · exact ih hx hns
    · rw [if_neg ha]
      rcases List.mem_cons.mp hx with rfl | hx
      · exact List.mem_cons_self _ _
      · by_cases hxa : x = a
        · subst hxa; exact List.mem_cons_self _ _
        · refine List.mem_cons_of_mem _ (ih hx ?_)
          intro hmem
          rcases List.mem_append.mp hmem with h | h
          · exact hns h
          · simp at h; exact hxa h

theorem any_key_iff (acc : List (String × List MenuDish)) (k : String) :
    acc.any (fun e => e.1 = k) = true ↔ k ∈ acc.map Prod.fst := by
  simp only [List.any_eq_true, List.mem_map, decide_eq_true_eq]

theorem keys_groupInsert (acc : List (String × List MenuDish)) (k : String) (d : MenuDish) :
    (groupInsert acc k d).map Prod.fst =
      if k ∈ acc.map Prod.fst then acc.map Prod.fst else acc.map Prod.fst ++ [k] := by
  unfold groupInsert
  by_cases hk : k ∈ acc.map Prod.fst
  · rw [if_pos ((any_key_iff acc k).mpr hk), if_pos hk, List.map_map]
    refine List.map_congr_left ?_
    intro e _
    by_cases he : e.1 = k <;> simp [he]
  · rw [if_neg ?h, if_neg hk]
    · simp
    case h =>
      intro hc
      exact hk ((any_key_iff acc k).mp hc)

theorem groupEntries_eq_spec :
    ∀ (es : List (String × MenuDish)) (acc : List (String × List MenuDish)),
      (acc.map Prod.fst).Nodup →
      groupEntries es acc =
        acc.map (fun g => (g.1, g.2 ++ (es.filter (fun e => e.1 = g.1)).map Prod.snd))
        ++ (firstSeenFrom (es.map Prod.fst) (acc.map Prod.fst)).map
             (fun k => (k, (es.filter (fun e => e.1 = k)).map Prod.snd)) := by
  intro es
  induction es with
  | nil =>
    intro acc hnd
    simp [groupEntries, firstSeenFrom]
  | cons hd rest ih =>
    obtain ⟨k, d⟩ := hd
    intro acc hnd
    show groupEntries rest (groupInsert acc k d) = _
    by_cases hk : k ∈ acc.map Prod.fst
    · have hkeys : (groupInsert acc k d).map Prod.fst = acc.map Prod.fst := by
        rw [keys_groupInsert, if_pos hk]
      have hins : groupInsert acc k d =
          acc.map (fun e => if e.1 = k then (e.1, e.2 ++ [d]) else e) := by
        unfold groupInsert
        rw [if_pos ((any_key_iff acc k).mpr hk)]
      rw [ih (groupInsert acc k d) (by rw [hkeys]; exact hnd), hkeys, hins, List.map_map]
      simp only [List.map_cons, firstSeenFrom, if_pos hk]
      congr 1
      · refine List.map_congr_left ?_
        intro e _
        by_cases he : e.1 = k
        · simp [Function.comp, he, List.filter_cons, List.append_assoc]
        · have : ¬ k = e.1 := fun h => he h.symm
          simp [Function.comp, he, List.filter_cons, this]
      · refine List.map_congr_left ?_
        intro x hx
        have hxk : x ≠ k := by
          intro h
          exact (mem_firstSeenFrom hx).2 (h ▸ hk)
        have : ¬ k = x := fun h => hxk h.symm
        simp [List.filter_cons, this]
    · have hany : ¬ acc.any (fun e => e.1 = k) = true := by
        intro hc
        exact hk ((any_key_iff acc k).mp hc)
      have hins : groupInsert acc k d = acc ++ [(k, [d])] := by
        unfold groupInsert
        rw [if_neg hany]
      have hkeys : (groupInsert acc k d).map Prod.fst = acc.map Prod.fst ++ [k] := by
        rw [keys_groupInsert, if_neg hk]
      have hnd' : ((groupInsert acc k d).map Prod.fst).Nodup := by
        rw [hkeys]
        refine List.Nodup.append hnd (List.nodup_singleton _) ?_
        intro a ha hak
        rw [List.mem_singleton] at hak
        exact hk (hak ▸ ha)
      rw [ih (groupInsert acc k d) hnd', hkeys, hins]
      simp only [List.map_cons, firstSeenFrom, if_neg hk, List.map_append, List.map_cons,
        List.map_nil]
      rw [List.append_assoc]
      congr 1
      · refine List.map_congr_left ?_
        intro e he
        have hek : ¬ k = e.1 := by
          intro h
          exact hk (h ▸ List.mem_map.mpr ⟨e, he, rfl⟩)
        simp [List.filter_cons, hek]
      · simp only [List.singleton_append, List.cons.injEq]
        constructor
        · simp [List.filter_cons]
        · refine List.map_congr_left ?_
          intro x hx
          have hxk : ¬ k = x := by
            intro h
            exact (mem_firstSeenFrom hx).2 (List.mem_append_right _ (by simp [h]))
          simp [List.filter_cons, hxk]

theorem groupItems_eq (items : List PyVal) :
    ∀ acc, groupItems items acc = groupEntries (items.filterMap itemEntry) acc := by
  induction items with
  | nil => intro acc; rfl
  | cons it rest ih =>
    intro acc
    simp only [groupItems, List.filterMap_cons]
    cases h : itemEntry it with
    | none => exact ih acc
    | some p =>
      obtain ⟨k, d⟩ := p
      simp only [groupEntries]
      exact ih _

/-- Full characterisation of `_build_menu_template` on a well-formed
payload: the sections are the first-seen section keys of the kept items,
each holding the kept dishes of that key in encounter order. -/
theorem build_menu_template_items (items : List PyVal) :
    build_menu_template (.vdict [("items", .vlist items)]) =
      .ok { sections :=
              (firstSeen ((items.filterMap itemEntry).map Prod.fst)).map
                (fun k =>
                  { title := k
                    dishes := ((items.filterMap itemEntry).filter
                                 (fun e => e.1 = k)).map Prod.snd }) } := by
  have h := groupEntries_eq_spec (items.filterMap itemEntry) [] (by simp)
  show (Except.ok
      { sections := (groupItems items []).map
          (fun e => ({ title := e.1, dishes := e.2 } : MenuSection)) } :
        Except String MenuTemplate) = _
  rw [groupItems_eq, h]
  simp [firstSeen, List.map_map, Function.comp]

theorem rat_floor_eq_intFloor (q : Rat) : q.floor = ⌊q⌋ :=
  (Rat.floor_def' q).trans Rat.floor_def.symm

theorem pad2_length_fin : ∀ m : Fin 100, (pad2 m.1).length = 2 := by decide

theorem pad2_length {m : Nat} (hm : m < 100) : (pad2 m).length = 2 :=
  pad2_length_fin ⟨m, hm⟩

theorem retry_menu_singleton (t : String) (rec : UploadSessionRecord) (e now : Nat)
    (htok : rec.token = t) (hlive : now < e) :
    retry_menu [(t, rec, e)] t now =
      (if rec.retry_count + 1 > MAX_SESSION_RETRIES then RetryOutcome.retryLimit
       else RetryOutcome.generated rec.file_ids,
       [(t, { rec with retry_count := rec.retry_count + 1 }, e)]) := by
  have hne : ¬ e ≤ now := Nat.not_le.mpr hlive
  unfold retry_menu purge_expired_sessions uploadPurge uploadFetch uploadIncrementRetry
  simp [hne, hlive, htok, List.find?]
  split <;> rfl

theorem retryStores_singleton (t : String) (fids fns cts : List String)
    (created e now : Nat) (hlive : now < e) :
    ∀ k : Nat, retryStores [(t, ⟨t, fids, fns, cts, created, e, 0⟩, e)] t now k =
      [(t, ⟨t, fids, fns, cts, created, e, k⟩, e)] := by
  intro k
  induction k with
  | zero => rfl
  | succ n ih =>
    show (retry_menu (retryStores _ t now n) t now).2 = _
    rw [ih, retry_menu_singleton t _ e now rfl hlive]

/-! ## Claim theorems -/

/-- **C1.**  Deleting an upload session releases exactly the remote file
handles recorded for that session: for any stored, unexpired session
record, the route's event trace is the `delete_files` calls for the purged
expired records' `file_ids`, followed by exactly one `delete_files` call
carrying precisely the record's `file_ids`, followed by removal of the
record — which is afterwards absent from the store. -/
theorem delete_session_releases_exact_files
    (store : UploadStore) (sid : String) (rec : UploadSessionRecord)
    (expiresAt now : Nat)
    (hnd : (store.map Prod.fst).Nodup)
    (hmem : (sid, rec, expiresAt) ∈ store) (hlive : now < expiresAt) :
    (delete_upload_session store sid now).1 =
      ((store.filter (fun e => e.2.2 ≤ now)).map
          (fun e => SessionEvent.deleteFiles e.2.1.file_ids))
        ++ [SessionEvent.deleteFiles rec.file_ids, SessionEvent.removeRecord sid] ∧
    (delete_upload_session store sid now).2.find? (fun e => e.1 = sid) = none := by
  have hne : ¬ expiresAt ≤ now := Nat.not_le.mpr hlive
  have hkeep : (sid, rec, expiresAt) ∈ store.filter (fun e => ¬ e.2.2 ≤ now) := by
    rw [List.mem_filter]
    exact ⟨hmem, by simpa using hne⟩
  have hnd1 : ((store.filter (fun e => ¬ e.2.2 ≤ now)).map Prod.fst).Nodup :=
    hnd.sublist ((List.filter_sublist store).map Prod.fst)
  have hfind := find?_eq_of_keys_nodup hnd1 hkeep
  constructor
  · simp only [delete_upload_session, purge_expired_sessions, uploadPurge, uploadFetch]
    rw [hfind]
    simp [hne]
  · apply List.find?_eq_none.mpr
    intro x hx
    have hx2 : x ∈ (delete_upload_session store sid now).2 := hx
    unfold delete_upload_session uploadDelete at hx2
    rw [List.mem_filter] at hx2
    simpa using hx2.2

/-- **C1 witness.**  A live session `"s"` owning `["f1", "f2"]` alongside an
expired session `"old"` owning `["f0"]`: deleting `"s"` at time 5 first
purges `"old"` (deleting `["f0"]`), then deletes exactly `["f1", "f2"]`,
then removes `"s"`. -/
theorem delete_session_releases_exact_files_witness :
    (delete_upload_session
        [("old", ⟨"old", ["f0"], [], [], 0, 3, 0⟩, 3),
         ("s", ⟨"s", ["f1", "f2"], [], [], 0, 10, 0⟩, 10)] "s" 5).1 =
      [SessionEvent.deleteFiles ["f0"], SessionEvent.deleteFiles ["f1", "f2"],
       SessionEvent.removeRecord "s"] ∧
    (delete_upload_session
        [("old", ⟨"old", ["f0"], [], [], 0, 3, 0⟩, 3),
         ("s", ⟨"s", ["f1", "f2"], [], [], 0, 10, 0⟩, 10)] "s" 5).2.find?
      (fun e => e.1 = "s") = none := by
  have h := delete_session_releases_exact_files
    [("old", ⟨"old", ["f0"], [], [], 0, 3, 0⟩, 3),
     ("s", ⟨"s", ["f1", "f2"], [], [], 0, 10, 0⟩, 10)]
    "s" ⟨"s", ["f1", "f2"], [], [], 0, 10, 0⟩ 10 5
    (by decide) (by simp) (by decide)
  exact ⟨h.1.trans (by rfl), h.2⟩

/-- **C2.**  Price normalisation in response assembly: `None` and the empty
string yield absent (`none`); an `int`, or a float with denominator 1
(an integer-valued numeric), renders as the bare integer string; a
non-integer numeric renders through the fixed two-decimal format, whose
output always consists of an integer part, a decimal point, and exactly
two digits; any other value is stringified as-is, so the literal `"N/A"`
sentinel is preserved unchanged. -/
theorem format_price_normalisation :
    format_price PyVal.vnone = none ∧
    format_price (PyVal.vstr "") = none ∧
    (∀ n : Int, format_price (PyVal.vint n) = some (toString n)) ∧
    (∀ q : Rat, q.den = 1 → format_price (PyVal.vfloat q) = some (toString q.num)) ∧
    (∀ q : Rat, q.den ≠ 1 →
      format_price (PyVal.vfloat q) = some (pyFormat2f q) ∧
      ∃ intPart digits, pyFormat2f q = intPart ++ "." ++ digits ∧ digits.length = 2) ∧
    (∀ s : String, s ≠ "" → format_price (PyVal.vstr s) = some s) := by
  refine ⟨rfl, rfl, fun n => rfl, ?_, ?_, ?_⟩
  · intro q hq
    show (if q.den = 1 then some (toString q.num) else some (pyFormat2f q)) = _
    rw [if_pos hq]
  · intro q hq
    refine ⟨by show (if q.den = 1 then _ else _) = _; rw [if_neg hq], ?_⟩
    show ∃ intPart digits,
      (if roundHalfEven (q * 100) < 0 then
        "-" ++ (toString ((roundHalfEven (q * 100)).natAbs / 100) ++ "." ++
          pad2 ((roundHalfEven (q * 100)).natAbs % 100))
       else toString ((roundHalfEven (q * 100)).natAbs / 100) ++ "." ++
          pad2 ((roundHalfEven (q * 100)).natAbs % 100)) = intPart ++ "." ++ digits ∧
      digits.length = 2
    have hlen : (pad2 ((roundHalfEven (q * 100)).natAbs % 100)).length = 2 :=
      pad2_length (Nat.mod_lt _ (by norm_num))
    by_cases hneg : roundHalfEven (q * 100) < 0
    · refine ⟨"-" ++ toString ((roundHalfEven (q * 100)).natAbs / 100), _,
        ?_, hlen⟩
      rw [if_pos hneg, ← String.append_assoc, ← String.append_assoc]
    · exact ⟨toString ((roundHalfEven (q * 100)).natAbs / 100), _, by rw [if_neg hneg], hlen⟩
  · intro s hs
    conv =>
      lhs
      rw [format_price.eq_def]
    split
    · rename_i heq
      exact PyVal.noConfusion heq
    · rename_i heq
      injection heq with h
      exact absurd h hs
    · rename_i heq
      exact PyVal.noConfusion heq
    · rename_i heq
      exact PyVal.noConfusion heq
    · rename_i s2 hs2 heq
      injection heq with h
      rw [h]
    · rfl

/-- **C2 witness.**  The spec's own examples: `12 → "12"`, `12.0 → "12"`,
`12.5 → "12.50"`, `"N/A"` preserved unchanged. -/
theorem format_price_normalisation_witness :
    format_price (PyVal.vint 12) = some "12" ∧
    format_price (PyVal.vfloat 12) = some "12" ∧
    format_price (PyVal.vfloat (25 / 2 : Rat)) = some "12.50" ∧
    format_price (PyVal.vstr "N/A") = some "N/A" := by
  have h := format_price_normalisation
  refine ⟨(h.2.2.1 12).trans (by rfl),
    ((h.2.2.2.1 (12 : Rat)) (by norm_num)).trans (by rfl),
    ((h.2.2.2.2.1 (25 / 2 : Rat) (by norm_num)).1).trans ?_,
    (h.2.2.2.2.2 "N/A") (by decide)⟩
  norm_num [pyFormat2f, roundHalfEven, pad2, rat_floor_eq_intFloor]
  rfl

/-- **C3.**  For every item payload, response assembly emits the sections
in the order each section label was first encountered among the kept items
(not sorted), and within each section the dishes appear in input
encounter order. -/
theorem assembly_preserves_order (items : List PyVal) :
    ∃ tpl, build_menu_template (.vdict [("items", .vlist items)]) = .ok tpl ∧
      tpl.sections.map MenuSection.title =
        firstSeen ((items.filterMap itemEntry).map Prod.fst) ∧
      ∀ sec ∈ tpl.sections,
        sec.dishes = ((items.filterMap itemEntry).filter
            (fun e => e.1 = sec.title)).map Prod.snd := by
  refine ⟨_, build_menu_template_items items, ?_, ?_⟩
  · rw [List.map_map]
    exact (List.map_congr_left (fun k _ => rfl)).trans (List.map_id _)
  · intro sec hsec
    simp only [List.mem_map] at hsec
    obtain ⟨k, hk, rfl⟩ := hsec
    rfl

/-- **C3 witness.**  Instantiation at a payload whose items carry section
labels `"B"`, `"A"`, `"B"` in that order. -/
theorem assembly_preserves_order_witness :
    ∃ tpl,
      build_menu_template (.vdict [("items", .vlist
        [.vdict [("section", .vstr "B"), ("original_name", .vstr "a"),
                 ("translated_name", .vstr "A"), ("description", .vstr "da")],
         .vdict [("section", .vstr "A"), ("original_name", .vstr "b"),
                 ("translated_name", .vstr "B"), ("description", .vstr "db")],
         .vdict [("section", .vstr "B"), ("original_name", .vstr "c"),
                 ("translated_name", .vstr "C"), ("description", .vstr "dc")]])]) = .ok tpl ∧
      tpl.sections.map MenuSection.title =
        firstSeen (([.vdict [("section", .vstr "B"), ("original_name", .vstr "a"),
                 ("translated_name", .vstr "A"), ("description", .vstr "da")],
         .vdict [("section", .vstr "A"), ("original_name", .vstr "b"),
                 ("translated_name", .vstr "B"), ("description", .vstr "db")],
         .vdict [("section", .vstr "B"), ("original_name", .vstr "c"),
                 ("translated_name", .vstr "C"), ("description", .vstr "dc")]].filterMap
            itemEntry).map Prod.fst) ∧
      ∀ sec ∈ tpl.sections,
        sec.dishes = (([.vdict [("section", .vstr "B"), ("original_name", .vstr "a"),
                 ("translated_name", .vstr "A"), ("description", .vstr "da")],
         .vdict [("section", .vstr "A"), ("original_name", .vstr "b"),
                 ("translated_name", .vstr "B"), ("description", .vstr "db")],
         .vdict [("section", .vstr "B"), ("original_name", .vstr "c"),
                 ("translated_name", .vstr "C"), ("description", .vstr "dc")]].filterMap
            itemEntry).filter (fun e => e.1 = sec.title)).map Prod.snd :=
  assembly_preserves_order _

theorem mem_sections_of_mem_entries (es : List (String × MenuDish)) (k : String)
    (d : MenuDish) (hmem : (k, d) ∈ es) :
    ∃ sec ∈ (firstSeen (es.map Prod.fst)).map
        (fun q => ({ title := q,
                     dishes := (es.filter (fun e => e.1 = q)).map Prod.snd } : MenuSection)),
      sec.title = k ∧ d ∈ sec.dishes := by
  have hk : k ∈ firstSeen (es.map Prod.fst) :=
    firstSeenFrom_mem (List.mem_map.mpr ⟨(k, d), hmem, rfl⟩) (List.not_mem_nil k)
  refine ⟨_, List.mem_map.mpr ⟨k, hk, rfl⟩, rfl, ?_⟩
  exact List.mem_map.mpr ⟨(k, d), List.mem_filter.mpr ⟨hmem, by simp⟩, rfl⟩

/-- **C4.**  Items with a missing-or-blank required field are silently
dropped (assembly never errors on a well-formed items list, and such an
item contributes nothing); items with all three fields non-empty after
trimming are kept, with the section label defaulting to `"Menu"` when the
field is absent or empty. -/
theorem assembly_drops_blank_items :
    (∀ items : List PyVal,
      ∃ tpl, build_menu_template (.vdict [("items", .vlist items)]) = .ok tpl) ∧
    (∀ (pre post : List PyVal) (kvs : List (String × PyVal)),
      (fieldTrim kvs "original_name" = "" ∨ fieldTrim kvs "translated_name" = "" ∨
          fieldTrim kvs "description" = "") →
      build_menu_template (.vdict [("items", .vlist (pre ++ .vdict kvs :: post))]) =
        build_menu_template (.vdict [("items", .vlist (pre ++ post))])) ∧
    (∀ (items : List PyVal) (kvs : List (String × PyVal)),
      fieldTrim kvs "original_name" ≠ "" → fieldTrim kvs "translated_name" ≠ "" →
      fieldTrim kvs "description" ≠ "" →
      ∃ tpl, build_menu_template (.vdict [("items", .vlist (items ++ [.vdict kvs]))]) =
          .ok tpl ∧
        ∃ sec ∈ tpl.sections, sec.title = sectionKey kvs ∧
          ({ original_name := fieldTrim kvs "original_name"
             translated_name := fieldTrim kvs "translated_name"
             description := fieldTrim kvs "description"
             price := format_price ((pyGet kvs "price").getD .vnone) } : MenuDish)
            ∈ sec.dishes) ∧
    (∀ kvs : List (String × PyVal),
      pyGet kvs "section" = none → sectionKey kvs = "Menu") ∧
    (∀ kvs : List (String × PyVal),
      pyGet kvs "section" = some (.vstr "") → sectionKey kvs = "Menu") := by
  have hdrop : ∀ (kvs : List (String × PyVal)),
      (fieldTrim kvs "original_name" = "" ∨ fieldTrim kvs "translated_name" = "" ∨
          fieldTrim kvs "description" = "") → itemEntry (.vdict kvs) = none := by
    intro kvs h
    show buildDish kvs = none
    unfold buildDish
    exact if_pos h
  have hkeep : ∀ (kvs : List (String × PyVal)),
      fieldTrim kvs "original_name" ≠ "" → fieldTrim kvs "translated_name" ≠ "" →
      fieldTrim kvs "description" ≠ "" →
      itemEntry (.vdict kvs) = some (sectionKey kvs,
        { original_name := fieldTrim kvs "original_name"
          translated_name := fieldTrim kvs "translated_name"
          description := fieldTrim kvs "description"
          price := format_price ((pyGet kvs "price").getD .vnone) }) := by
    intro kvs h1 h2 h3
    show buildDish kvs = _
    unfold buildDish
    rw [if_neg (by push_neg; exact ⟨h1, h2, h3⟩)]
  refine ⟨?_, ?_, ?_, ?_, ?_⟩
  · intro items
    exact ⟨_, build_menu_template_items items⟩
  · intro pre post kvs h
    rw [build_menu_template_items, build_menu_template_items]
    simp [List.filterMap_append, hdrop kvs h]
  · intro items kvs h1 h2 h3
    refine ⟨_, build_menu_template_items _, ?_⟩
    apply mem_sections_of_mem_entries
    rw [List.filterMap_append]
    refine List.mem_append_right _ ?_
    simp [List.filterMap_cons, hkeep kvs h1 h2 h3]
  · intro kvs h
    unfold sectionKey getOrDefault
    rw [h]
    rfl
  · intro kvs h
    unfold sectionKey getOrDefault
    rw [h]
    rfl

/-- **C4 witness.**  A blank-description item between two kept items is
dropped without error, and a kept item with no section field lands in the
default `"Menu"` section. -/
theorem assembly_drops_blank_items_witness :
    build_menu_template (.vdict [("items", .vlist
        ([.vdict [("original_name", .vstr "a"), ("translated_name", .vstr "A"),
                  ("description", .vstr "da")]] ++
          .vdict [("original_name", .vstr "x"), ("translated_name", .vstr "X"),
                  ("description", .vstr "   ")] ::
          [.vdict [("original_name", .vstr "b"), ("translated_name", .vstr "B"),
                   ("description", .vstr "db")]]))]) =
      build_menu_template (.vdict [("items", .vlist
        ([.vdict [("original_name", .vstr "a"), ("translated_name", .vstr "A"),
                  ("description", .vstr "da")]] ++
          [.vdict [("original_name", .vstr "b"), ("translated_name", .vstr "B"),
                   ("description", .vstr "db")]]))]) ∧
    sectionKey [("original_name", .vstr "a")] = "Menu" := by
  have h := assembly_drops_blank_items
  refine ⟨h.2.1 _ _ _ (by right; right; decide), h.2.2.2.1 _ (by rfl)⟩

/-- **C5.**  Response assembly rejects any payload that is not a mapping
or lacks the top-level `"items"` key: it raises (models as `.error`)
rather than returning a template. -/
theorem assembly_rejects_missing_items (payload : PyVal)
    (h : ∀ kvs, payload = PyVal.vdict kvs → pyGet kvs "items" = none) :
    ∃ msg, build_menu_template payload = .error msg := by
  cases payload with
  | vdict kvs =>
    have hnone := h kvs rfl
    refine ⟨"OpenAI response missing items payload", ?_⟩
    simp only [build_menu_template, hnone]
  | vnone => exact ⟨_, rfl⟩
  | vstr s => exact ⟨_, rfl⟩
  | vint n => exact ⟨_, rfl⟩
  | vfloat q => exact ⟨_, rfl⟩
  | vlist xs => exact ⟨_, rfl⟩

/-- **C5 witness.**  A list payload and a mapping without `"items"` both
produce the malformed-payload error. -/
theorem assembly_rejects_missing_items_witness :
    (∃ msg, build_menu_template (.vlist []) = .error msg) ∧
    (∃ msg, build_menu_template (.vdict [("other", .vnone)]) = .error msg) :=
  ⟨assembly_rejects_missing_items _ (fun kvs h => by cases h),
   assembly_rejects_missing_items _ (fun kvs h => by cases h; rfl)⟩

/-- **C10.**  A mapping payload whose `"items"` value is a list with no
mapping elements yields — without error — a `MenuTemplate` with zero
sections and status `"completed"`: non-dict items are skipped silently. -/
theorem assembly_skips_non_dict_items (items : List PyVal)
    (h : ∀ x ∈ items, ∀ kvs, x ≠ PyVal.vdict kvs) :
    build_menu_template (.vdict [("items", .vlist items)]) =
      .ok { status := "completed", original_language := none, sections := [] } := by
  rw [build_menu_template_items]
  have hfm : items.filterMap itemEntry = [] := by
    rw [List.filterMap_eq_nil_iff]
    intro x hx
    cases x with
    | vdict kvs => exact absurd rfl (h _ hx kvs)
    | vnone => rfl
    | vstr s => rfl
    | vint n => rfl
    | vfloat q => rfl
    | vlist xs => rfl
  rw [hfm]
  rfl

/-- **C10 witness.**  An empty items list and a list of non-mapping items
both give the empty completed template. -/
theorem assembly_skips_non_dict_items_witness :
    build_menu_template (.vdict [("items", .vlist [])]) =
      .ok { status := "completed", original_language := none, sections := [] } ∧
    build_menu_template (.vdict [("items", .vlist [.vstr "soup", .vint 3])]) =
      .ok { status := "completed", original_language := none, sections := [] } :=
  ⟨assembly_skips_non_dict_items [] (by simp),
   assembly_skips_non_dict_items [.vstr "soup", .vint 3] (by
    intro x hx kvs
    simp only [List.mem_cons, List.not_mem_nil, or_false] at hx
    rcases hx with h | h <;> simp [h])⟩

/-- **C6 counterexample.**  The claim says `increment_retry` fails with
NotFound for a token whose record has expired.  In the code,
`InMemoryUploadRepository.increment_retry` checks only membership in the
dict: a record that expired at time 3 — expired relative to `now = 5` —
but was never evicted is still incremented, and the call returns count 1
instead of failing. -/
theorem increment_retry_expired_counterexample :
    (3 : Nat) ≤ 5 ∧
    uploadIncrementRetry
        [("t", ⟨"t", ["f1"], ["m.jpg"], ["image/jpeg"], 0, 3, 0⟩, 3)] "t" =
      some (1, [("t", ⟨"t", ["f1"], ["m.jpg"], ["image/jpeg"], 0, 3, 1⟩, 3)]) :=
  ⟨by norm_num, by rfl⟩

/-- **C6 amended.**  `increment_retry` fails (raises `KeyError`, the
service's NotFound) exactly when the token is absent from the store; it
does not consult `expires_at`, so a present-but-expired record is still
incremented and its new count returned.  (Expired records are normally
evicted first by `describe`/purge in the route flow.) -/
theorem increment_retry_fails_iff_absent (store : UploadStore) (token : String) :
    (uploadIncrementRetry store token = none ↔
      store.find? (fun e => e.1 = token) = none) ∧
    (∀ rec expiresAt, (store.map Prod.fst).Nodup → (token, rec, expiresAt) ∈ store →
      uploadIncrementRetry store token =
        some (rec.retry_count + 1,
          store.map (fun e =>
            if e.1 = token then
              (token, { rec with retry_count := rec.retry_count + 1 }, expiresAt)
            else e))) := by
  constructor
  · unfold uploadIncrementRetry
    cases hf : store.find? (fun e => e.1 = token) with
    | none => simp
    | some p =>
      obtain ⟨a, rec, exp⟩ := p
      simp
  · intro rec expiresAt hnd hmem
    unfold uploadIncrementRetry
    rw [find?_eq_of_keys_nodup hnd hmem]

/-- **C6 amended witness.**  An absent token fails; a present (even
expired) token is incremented. -/
theorem increment_retry_fails_iff_absent_witness :
    uploadIncrementRetry [] "x" = none ∧
    uploadIncrementRetry [("t", ⟨"t", ["f1"], [], [], 0, 9, 0⟩, 9)] "t" =
      some (1, [("t", ⟨"t", ["f1"], [], [], 0, 9, 1⟩, 9)]) := by
  constructor
  · exact (increment_retry_fails_iff_absent [] "x").1.mpr rfl
  · exact ((increment_retry_fails_iff_absent _ "t").2
      ⟨"t", ["f1"], [], [], 0, 9, 0⟩ 9 (by decide) (by simp)).trans (by rfl)

/-- **C7.**  Retry cap: a session starting at `retry_count = 0` serves
five successful retries; the sixth attempt is rejected with the
retry-limit outcome (a constructor distinct from NotFound) while the
record's `file_ids` list is unchanged in the store. -/
theorem retry_cap_five_then_limit (t : String) (fids fns cts : List String)
    (created e now : Nat) (hlive : now < e) :
    (∀ k, k < MAX_SESSION_RETRIES →
      (retry_menu (retryStores [(t, ⟨t, fids, fns, cts, created, e, 0⟩, e)] t now k)
          t now).1 = RetryOutcome.generated fids) ∧
    (retry_menu (retryStores [(t, ⟨t, fids, fns, cts, created, e, 0⟩, e)] t now
        MAX_SESSION_RETRIES) t now).1 = RetryOutcome.retryLimit ∧
    RetryOutcome.retryLimit ≠ RetryOutcome.notFound ∧
    (∀ entry ∈ retryStores [(t, ⟨t, fids, fns, cts, created, e, 0⟩, e)] t now
        (MAX_SESSION_RETRIES + 1), entry.2.1.file_ids = fids) := by
  refine ⟨?_, ?_, by simp, ?_⟩
  · intro k hk
    rw [retryStores_singleton t fids fns cts created e now hlive k,
        retry_menu_singleton t _ e now rfl hlive]
    have hle : ¬ ((⟨t, fids, fns, cts, created, e, k⟩ :
        UploadSessionRecord).retry_count + 1 > MAX_SESSION_RETRIES) := by
      show ¬ (k + 1 > MAX_SESSION_RETRIES)
      unfold MAX_SESSION_RETRIES at hk ⊢
      omega
    rw [if_neg hle]
  · rw [retryStores_singleton t fids fns cts created e now hlive MAX_SESSION_RETRIES,
        retry_menu_singleton t _ e now rfl hlive]
    rw [if_pos (by show MAX_SESSION_RETRIES + 1 > MAX_SESSION_RETRIES; omega)]
  · intro entry hmem
    rw [retryStores_singleton t fids fns cts created e now hlive
        (MAX_SESSION_RETRIES + 1)] at hmem
    rw [List.mem_singleton] at hmem
    rw [hmem]

/-- **C7 witness.**  The fifth retry succeeds and the sixth hits the cap,
for a concrete session with file ids `["f1"]`. -/
theorem retry_cap_five_then_limit_witness :
    (retry_menu (retryStores [("t", ⟨"t", ["f1"], [], [], 0, 9, 0⟩, 9)] "t" 1 4)
        "t" 1).1 = RetryOutcome.generated ["f1"] ∧
    (retry_menu (retryStores [("t", ⟨"t", ["f1"], [], [], 0, 9, 0⟩, 9)] "t" 1 5)
        "t" 1).1 = RetryOutcome.retryLimit := by
  have h := retry_cap_five_then_limit "t" ["f1"] [] [] 0 9 1 (by norm_num)
  exact ⟨h.1 4 (by decide), h.2.1⟩

/-- **C8 counterexample.**  The claim asserts lazy expiry for both stores
once the TTL has elapsed (`expires_at ≤ now`, the expiry convention the
upload store and both purge sweeps use).  At the boundary instant
`now = expires_at = 5`, the share store's `fetch` — whose check is the
strict `now > expires_at` — still returns the record, while the upload
store's `fetch` already reports the same instant as expired. -/
theorem share_fetch_boundary_counterexample :
    (5 : Nat) ≤ 5 ∧
    (shareFetch [("t", { sections := [] }, 0, 5)] "t" 5).1 =
      some ⟨"t", { sections := [] }, 0, 5⟩ ∧
    (uploadFetch [("t", ⟨"t", ["f1"], [], [], 0, 5, 0⟩, 5)] "t" 5).1 = none :=
  ⟨by norm_num, by rfl, by rfl⟩

/-- **C8 amended.**  Lazy expiry without any purge, and `describe` never
raising, hold with the stores' own boundary conventions: the upload
store's `fetch` returns `none` as soon as `expires_at ≤ now`, the share
store's `fetch` returns `none` only once `expires_at < now` (at
`now = expires_at` it still returns the record), and both return `none`
for unknown tokens. -/
theorem lazy_expiry_fetch (now : Nat) :
    (∀ (store : UploadStore) (token : String) rec expiresAt,
      (store.map Prod.fst).Nodup → (token, rec, expiresAt) ∈ store →
      expiresAt ≤ now → (uploadFetch store token now).1 = none) ∧
    (∀ (store : ShareStore) (token : String) tpl createdAt expiresAt,
      (store.map Prod.fst).Nodup → (token, tpl, createdAt, expiresAt) ∈ store →
      expiresAt < now → (shareFetch store token now).1 = none) ∧
    (∀ (store : UploadStore) (token : String),
      store.find? (fun e => e.1 = token) = none →
      (uploadFetch store token now).1 = none) ∧
    (∀ (store : ShareStore) (token : String),
      store.find? (fun e => e.1 = token) = none →
      (shareFetch store token now).1 = none) := by
  refine ⟨?_, ?_, ?_, ?_⟩
  · intro store token rec expiresAt hnd hmem hexp
    unfold uploadFetch
    rw [find?_eq_of_keys_nodup hnd hmem]
    simp [hexp]
  · intro store token tpl createdAt expiresAt hnd hmem hexp
    unfold shareFetch
    rw [find?_eq_of_keys_nodup hnd hmem]
    simp [hexp]
  · intro store token hf
    unfold uploadFetch
    rw [hf]
  · intro store token hf
    unfold shareFetch
    rw [hf]

/-- **C8 amended witness.**  Concrete instantiations: an upload record at
`expires_at = now = 5` is gone, a share record with `expires_at = 5` is
gone at `now = 6`, and unknown tokens yield `none` in both stores. -/
theorem lazy_expiry_fetch_witness :
    (uploadFetch [("u", ⟨"u", ["f1"], [], [], 0, 5, 0⟩, 5)] "u" 5).1 = none ∧
    (shareFetch [("s", { sections := [] }, 0, 5)] "s" 6).1 = none ∧
    (uploadFetch [] "missing" 5).1 = none ∧
    (shareFetch [] "missing" 5).1 = none := by
  have h := lazy_expiry_fetch 5
  have h6 := lazy_expiry_fetch 6
  exact ⟨h.1 _ "u" ⟨"u", ["f1"], [], [], 0, 5, 0⟩ 5 (by decide) (by simp) (by norm_num),
    h6.2.1 _ "s" { sections := [] } 0 5 (by decide) (by simp) (by norm_num),
    h.2.2.1 [] "missing" rfl, h.2.2.2 [] "missing" rfl⟩

/-- **C9.**  Quick-suggestion degradation: both suggestion joins return
the empty string on timeout or on any raised error instead of
propagating the failure, and once the primary extraction produced a
template the combined result always succeeds, whatever the suggestion
task did. -/
theorem suggestion_failure_degrades :
    (∀ o : AwaitOutcome, (∀ s, o ≠ AwaitOutcome.value s) →
      await_suggestion_task o = "" ∧ consume_suggestion_task o = "") ∧
    (∀ (t : MenuTemplate) (hasTask : Bool) (o : AwaitOutcome),
      ∃ s, generate_menu_join (.ok t) hasTask o = .ok (t, s)) := by
  constructor
  · intro o ho
    cases o with
    | value s => exact absurd rfl (ho s)
    | timedOut => exact ⟨rfl, rfl⟩
    | raised msg => exact ⟨rfl, rfl⟩
  · intro t hasTask o
    exact ⟨_, rfl⟩

/-- **C9 witness.**  A timed-out and a raising suggestion task both
degrade to `""`, and the combined join still succeeds with the template. -/
theorem suggestion_failure_degrades_witness :
    (await_suggestion_task AwaitOutcome.timedOut = "" ∧
      consume_suggestion_task AwaitOutcome.timedOut = "") ∧
    (await_suggestion_task (AwaitOutcome.raised "boom") = "" ∧
      consume_suggestion_task (AwaitOutcome.raised "boom") = "") ∧
    (∃ s, generate_menu_join (.ok { sections := [] }) true AwaitOutcome.timedOut =
      .ok ({ sections := [] }, s)) := by
  have h := suggestion_failure_degrades
  exact ⟨h.1 AwaitOutcome.timedOut (by intro s; simp),
    h.1 (AwaitOutcome.raised "boom") (by intro s; simp),
    h.2 { sections := [] } true AwaitOutcome.timedOut⟩

end Mainu
